import Mathlib

/-!
# api_save: path-addressed JSON sampling and time series

A shallow embedding of `src/app/page.js` and `src/app/_page.js`.

Modelling conventions.
* A parsed JSON document is a `Json`. A finite JSON number is the rational it denotes;
  a literal that overflows (such as `1e999`) parses to an infinity. The JavaScript value
  `undefined` is `none` of an `Option`, so a document never contains `undefined`.
* A JavaScript value met while sampling is a `Value`: a JSON value, `NaN`, or a `Host`
  value (a function or object of the runtime, such as a member inherited from a built-in
  prototype). What the runtime supplies is a parameter, `Builtins`: the inherited
  members, the conversions behind `Number`, the rounding of the floating-point division,
  `JSON.parse (JSON.stringify h)` on a host value, and the messages of its `TypeError`s.
  The theorems hold for every `Builtins`.
* A JavaScript number is a `Num`: `NaN`, an infinity, or a finite double held as the
  rational it denotes. Comparison and `Math.max` are exact; the quotient of two finite
  numbers is rounded by `Builtins.round`, of which only monotonicity and exactness on
  small dyadic rationals are assumed. The sign of zero is not modelled.
* A `localStorage` record is held as the value `JSON.parse` reads from it; writing a
  record stores `reparse`, the image of the value under `JSON.parse (JSON.stringify _)`.
* A `TypeError` raised inside the `try` of `fetchData` is an `Except.error` carrying its
  message, and ends in the `catch` like a failed fetch.
* A `localStorage` record is absent or has the shape the application writes: an array
  of tokens, an object whose values are arrays of entries. Resource limits of the
  runtime (the storage quota, the argument limit of a spread call) are not modelled.
-/

namespace ApiSave

/-! ## Values -/

/-- A parsed JSON value. -/
inductive Json where
  | null : Json
  | bool (b : Bool) : Json
  | num (q : ℚ) : Json
  | infinity (negative : Bool) : Json
  | str (s : String) : Json
  | arr (items : List Json) : Json
  | obj (fields : List (String × Json)) : Json

/-- A value of the runtime that is no JSON value and not `NaN`: a function or an object
reached through a built-in prototype, or a one-unit string holding a lone surrogate. -/
structure Host where
  label : String

/-- A JavaScript value other than `undefined`. -/
inductive Value where
  | json (j : Json) : Value
  | nan : Value
  | host (h : Host) : Value

/-- A JavaScript number. -/
inductive Num where
  | nan : Num
  | negInf : Num
  | fin (q : ℚ) : Num
  | posInf : Num
  deriving DecidableEq

/-- The comparison `a < b` of two numbers; it is false when either is `NaN`. -/
def Num.lt : Num → Num → Bool
  | .negInf, .fin _ => true
  | .negInf, .posInf => true
  | .fin a, .fin b => decide (a < b)
  | .fin _, .posInf => true
  | _, _ => false

/-- The comparison `a <= b` of two numbers; it is false when either is `NaN`. -/
def Num.le : Num → Num → Bool
  | .negInf, .negInf => true
  | .negInf, .fin _ => true
  | .negInf, .posInf => true
  | .fin a, .fin b => decide (a ≤ b)
  | .fin _, .posInf => true
  | .posInf, .posInf => true
  | _, _ => false

/-- The call `Math.max(a, b)`. -/
def Num.max : Num → Num → Num
  | .nan, _ => .nan
  | _, .nan => .nan
  | a, b => if Num.lt a b then b else a

/-- A number as a value: an infinity is the value an overflowing literal parses to. -/
def Num.toValue : Num → Value
  | .nan => .nan
  | .negInf => .json (.infinity true)
  | .fin q => .json (.num q)
  | .posInf => .json (.infinity false)

/-- What the runtime supplies. -/
structure Builtins where
  /-- The member `acc[key]` finds on the prototype chain of an array, a string, a number
  or a boolean that has no own property `key`; `none` is `undefined`. -/
  inherited : Json → String → Option Value
  /-- The member of `Object.prototype` of a given name, as a plain object reads it. -/
  objectMember : String → Host
  /-- The property `h[key]` of a host value; `none` is `undefined`. -/
  hostGet : Host → String → Option Value
  /-- The one-unit string `s[key]` when the code unit at that index is a surrogate. -/
  unitString : String → String → Value
  /-- The call `Number(s)` for a string. -/
  strToNumber : String → Num
  /-- The call `String(a)` for an array; `none` when the conversion of an element throws. -/
  arrToString : List Json → Option String
  /-- The call `Number(h)` for a host value; `none` when the conversion throws. -/
  hostToNumber : Host → Option Num
  /-- The double nearest to a rational: the rounding of the floating-point division. -/
  round : ℚ → Num
  /-- Rounding is monotone (and so never `NaN`). -/
  round_mono : ∀ a b : ℚ, a ≤ b → Num.le (round a) (round b) = true
  /-- Rounding keeps a dyadic rational with a short numerator and exponent. -/
  round_dyadic : ∀ (k : ℤ) (j : ℕ), |k| ≤ 2 ^ 53 → j ≤ 1000 →
    round ((k : ℚ) / 2 ^ j) = .fin ((k : ℚ) / 2 ^ j)
  /-- The value `JSON.parse (JSON.stringify h)` of a host value held in an object;
  `none` when the key is dropped, as for a function. -/
  reparseHost : Host → Option Value
  /-- The message of the `TypeError` raised by calling a `push` that is `undefined`. -/
  notAFunction : String
  /-- The message of the `TypeError` raised by `Number` on an object that has no
  primitive value. -/
  cannotConvert : String

/-- The quotient `n / d`, with zero taken as `+0`. -/
def Num.div (B : Builtins) : Num → Num → Num
  | .nan, _ => .nan
  | _, .nan => .nan
  | .fin a, .fin b =>
    if b = 0 then (if a = 0 then .nan else if 0 < a then .posInf else .negInf)
    else B.round (a / b)
  | .fin _, _ => .fin 0
  | .posInf, .fin b => if 0 ≤ b then .posInf else .negInf
  | .negInf, .fin b => if 0 ≤ b then .negInf else .posInf
  | _, _ => .nan

/-- JavaScript truthiness of a JSON value, as tested by `acc && ...`. -/
def truthy : Json → Bool
  | .null => false
  | .bool b => b
  | .num q => decide (q ≠ 0)
  | .infinity _ => true
  | .str s => decide (s ≠ "")
  | .arr _ => true
  | .obj _ => true

/-- JavaScript truthiness of a value: `NaN` is falsy, a host value is truthy. -/
def isTruthy : Value → Bool
  | .json j => truthy j
  | .nan => false
  | .host _ => true

/-- The element whose index, written in decimal, is exactly `key`: property names
that are array indices are canonical numeric strings, so `"01"` names no element. -/
def atIndex {α : Type} (items : List α) (key : String) : Option α :=
  (items.enum.find? (fun p => toString p.1 == key)).map Prod.snd

/-- The UTF-16 code units of a string: a character of the basic plane is one unit,
kept as the character; any other character is two surrogate units, each `none`. -/
def codeUnits (s : String) : List (Option Char) :=
  s.data.flatMap (fun c => if c.val < 0x10000 then [some c] else [none, none])

/-- The names of the members every plain object inherits from `Object.prototype`. Each
is a function or an object: it is truthy and has no `push`. -/
def objectPrototypeMembers : List String :=
  ["constructor", "__defineGetter__", "__defineSetter__", "hasOwnProperty",
    "__lookupGetter__", "__lookupSetter__", "isPrototypeOf", "propertyIsEnumerable",
    "toString", "valueOf", "__proto__", "toLocaleString"]

/-- The own property `acc[key]` of a JSON value: a key of an object, an index or the
`length` of an array, a code-unit index or the `length` of a string. -/
def ownProp (B : Builtins) (acc : Json) (key : String) : Option Value :=
  match acc with
  | .obj fields => (fields.lookup key).map Value.json
  | .arr items =>
    match atIndex items key with
    | some v => some (.json v)
    | none => if key = "length" then some (.json (.num items.length)) else none
  | .str s =>
    match atIndex (codeUnits s) key with
    | some (some c) => some (.json (.str (String.mk [c])))
    | some none => some (B.unitString s key)
    | none => if key = "length" then some (.json (.num (codeUnits s).length)) else none
  | _ => none

/-- The member `acc[key]` finds on the prototype chain of a JSON value that has no own
property `key`: for a plain object, a member of `Object.prototype`. -/
def inheritedProp (B : Builtins) (acc : Json) (key : String) : Option Value :=
  match acc with
  | .obj _ => if key ∈ objectPrototypeMembers then some (.host (B.objectMember key)) else none
  | v => B.inherited v key

/-- Property access `acc[key]` with a string key on a truthy value: the own property,
or else the inherited member; `none` is `undefined`. -/
def getProp (B : Builtins) (acc : Value) (key : String) : Option Value :=
  match acc with
  | .json v =>
    match ownProp B v key with
    | some x => some x
    | none => inheritedProp B v key
  | .nan => none
  | .host h => B.hostGet h key

/-! ## Path tokens (`valueRenderer`, `fetchData`) -/

/-- The method `Array.prototype.join` with a one-character separator. -/
def jsJoin (parts : List String) (sep : Char) : String :=
  String.mk ([sep].intercalate (parts.map String.data))

/-- The method `String.prototype.split` with a one-character separator. -/
def jsSplit (s : String) (sep : Char) : List String :=
  (s.data.splitOn sep).map String.mk

/-- The key path the tree hands to `valueRenderer` for the node reached by the keys `ks`
(root first): leaf first, ending in the label of the root. Keys are held as the strings
`join` writes them, so the array index 0 is the key `"0"`. -/
def treeKeyPath (ks : List String) : List String :=
  ks.reverse ++ ["root"]

/-- The token of `valueRenderer`: `keyPath.reverse().join(".")`, where `keyPath` is the
leaf-first key path handed over by the tree (it ends in the root label). -/
def pathToken (keyPath : List String) : String :=
  jsJoin keyPath.reverse '.'

/-- The keys of `fetchData`: `path.split(".").filter((k) => k !== "root")`. -/
def pathKeys (path : String) : List String :=
  (jsSplit path '.').filter (fun k => k != "root")

/-! ## The resolver of `fetchData` -/

/-- One step of the reduce:
`(acc, key) => (acc && acc[key] !== undefined ? acc[key] : undefined)`. -/
def resolveStep (B : Builtins) (acc : Option Value) (key : String) : Option Value :=
  match acc with
  | none => none
  | some v => if isTruthy v then getProp B v key else none

/-- The resolver: `keys.reduce(resolveStep, json)`. -/
def resolve (B : Builtins) (json : Json) (keys : List String) : Option Value :=
  keys.foldl (resolveStep B) (some (.json json))

/-! ### The resolver as the specification words it -/

/-- Indexing as the specification words it: an object that has the key, or an array
that has the index. -/
def specIndex (v : Json) (key : String) : Option Json :=
  match v with
  | .obj fields => fields.lookup key
  | .arr items => atIndex items key
  | _ => none

/-- Resolution as the specification words it: walk the key sequence, `Absent` as soon
as the current value is not indexable or does not contain the next key. -/
def specResolve : Json → List String → Option Json
  | d, [] => some d
  | d, k :: ks =>
    match specIndex d k with
    | some v => specResolve v ks
    | none => none

/-! ## Observations and the series store -/

/-- An entry of a series: `{ timestamp, value }`, with `normValue` once `_page.js` has
normalized it. A `value` of `none` is `undefined`; a `normValue` of `none` is unset. -/
structure Obs where
  timestamp : String
  value : Option Value
  normValue : Option Value

/-- A series: the array `stored[path]`, in append order. -/
abbrev Series := List Obs

/-- The own properties of the object `stored`, from path token to series. -/
abbrev Store := List (String × Series)

/-- Reading the own property `stored[path]`; `none` when there is none. -/
def Store.get : Store → String → Option Series
  | [], _ => none
  | (k, v) :: rest, path => if k = path then some v else Store.get rest path

/-- Writing `stored[path] = series`. -/
def Store.set : Store → String → Series → Store
  | [], path, series => [(path, series)]
  | (k, v) :: rest, path, series =>
    if k = path then (k, series) :: rest else (k, v) :: Store.set rest path series

/-- The statements `if (!stored[path]) stored[path] = []; stored[path].push(entry)`.
When `stored` has no own series for `path` but inherits a member of that name, the
member is truthy, no array is created, and calling its `push` throws. -/
def pushEntry (B : Builtins) (stored : Store) (path : String) (entry : Obs) :
    Except String Store :=
  match stored.get path with
  | some series => .ok (stored.set path (series ++ [entry]))
  | none =>
    if path ∈ objectPrototypeMembers then .error B.notAFunction
    else .ok (stored.set path [entry])

/-- The series of a path, empty when the store has none. -/
def seriesOf (stored : Store) (path : String) : Series :=
  (stored.get path).getD []

/-- A JavaScript `Set` of path tokens: its members in insertion order, each once. -/
structure PathSet where
  elems : List String
  nodup : elems.Nodup

/-- What the fetch collaborator hands back: `fetch(url)` rejects with a message, or
resolves to a response with its `ok` flag, its status, and the outcome of
`res.json()` (the document, or the message of the rejection). -/
inductive FetchResult where
  | rejected (message : String) : FetchResult
  | response (ok : Bool) (status : Nat) (body : Except String Json) : FetchResult

/-- Lines 80 to 82 of `fetchData`: the parsed document, or the message of the error
thrown into the `catch`. -/
def fetchJson : FetchResult → Except String Json
  | .rejected message => .error message
  | .response ok status body =>
    if !ok then .error ("HTTP error! Status: " ++ toString status) else body

/-- The error document `{ error: e.message }`. -/
def errorDoc (message : String) : Json :=
  .obj [("error", .str message)]

/-! ## Writing a record to `localStorage` -/

mutual
/-- The value `JSON.parse (JSON.stringify j)` of a JSON value: an infinity is written
as `null`. -/
def Json.scrub : Json → Json
  | .infinity _ => .null
  | .arr items => .arr (scrubItems items)
  | .obj fields => .obj (scrubFields fields)
  | j => j
/-- The items of an array, each scrubbed. -/
def scrubItems : List Json → List Json
  | [] => []
  | j :: rest => j.scrub :: scrubItems rest
/-- The fields of an object, each scrubbed. -/
def scrubFields : List (String × Json) → List (String × Json)
  | [] => []
  | (k, j) :: rest => (k, j.scrub) :: scrubFields rest
end

/-- The value `JSON.parse (JSON.stringify v)` of a value held in a field of an entry;
`none` when the field is dropped. `NaN` is written as `null`. -/
def reparseValue (B : Builtins) : Value → Option Value
  | .json j => some (.json j.scrub)
  | .nan => some (.json .null)
  | .host h => B.reparseHost h

/-- The entry `JSON.parse (JSON.stringify d)`. -/
def reparseObs (B : Builtins) (d : Obs) : Obs :=
  { timestamp := d.timestamp
    value := d.value.bind (reparseValue B)
    normValue := d.normValue.bind (reparseValue B) }

/-- The store `JSON.parse (JSON.stringify stored)`. -/
def reparse (B : Builtins) (stored : Store) : Store :=
  stored.map (fun entry => (entry.1, entry.2.map (reparseObs B)))

/-! ## `src/app/page.js` -/

/-- A timer created by `setInterval`. -/
structure Timer where
  id : Nat
  period : ℚ

/-- The state of `App` in `page.js`, with the two `localStorage` records and the
timers of the event loop. -/
structure AppState where
  url : String
  data : Json
  selected : PathSet
  timeSeries : Store
  intervalRef : Option Nat
  interval : Option ℚ
  isFetching : Bool
  savedSelected : Option (List String)
  savedSeries : Option Store
  timers : List Timer
  nextTimerId : Nat

/-- The state set up by the `useState` and `useRef` calls, over a given storage. -/
def initialState (savedSelected : Option (List String)) (savedSeries : Option Store) :
    AppState :=
  { url := "http://numbersapi.com/random/math?json"
    data := .null
    selected := ⟨[], List.nodup_nil⟩
    timeSeries := []
    intervalRef := none
    interval := some 1000
    isFetching := false
    savedSelected := savedSelected
    savedSeries := savedSeries
    timers := []
    nextTimerId := 1 }

namespace Page

/-- The body of `selected.forEach` in `page.js` (lines 87 to 101); `clock path` is the
time string read when the entry of `path` is built. -/
def samplePath (B : Builtins) (json : Json) (clock : String → String) (stored : Store)
    (path : String) : Except String Store :=
  let keys := pathKeys path
  let value := resolve B json keys
  match value with
  | some v =>
    pushEntry B stored path { timestamp := clock path, value := some v, normValue := none }
  | none => .ok stored

/-- The loop `selected.forEach(...)` (lines 87 to 101): the first `TypeError` ends it. -/
def sampleAll (B : Builtins) (json : Json) (clock : String → String) :
    List String → Store → Except String Store
  | [], stored => .ok stored
  | path :: rest, stored =>
    match samplePath B json clock stored path with
    | .ok stored => sampleAll B json clock rest stored
    | .error message => .error message

/-- The function `fetchData` of `page.js` (lines 78 to 109). -/
def fetchData (B : Builtins) (clock : String → String) (st : AppState) (r : FetchResult) :
    AppState :=
  match fetchJson r with
  | .ok json =>
    match sampleAll B json clock st.selected.elems (st.savedSeries.getD []) with
    | .ok stored =>
      { st with data := json, savedSeries := some (reparse B stored), timeSeries := stored }
    | .error message => { st with data := errorDoc message }
  | .error message => { st with data := errorDoc message }

/-- The `onChange` handler of the interval input (lines 202 to 206); `n` is
`Number(e.target.value)`, `none` being `NaN`. -/
def onIntervalChange (st : AppState) (n : Option ℚ) : AppState :=
  { st with interval :=
      match n with
      | some q => if q < 100 then some 100 else some q
      | none => none }

/-- The function `clearInterval`. -/
def clearTimer (timers : List Timer) (id : Nat) : List Timer :=
  timers.filter (fun t => t.id != id)

/-- Line 113 of `startFetching`:
`if (intervalRef.current) clearInterval(intervalRef.current)`. -/
def clearCurrent (st : AppState) : AppState :=
  match st.intervalRef with
  | some id => if id ≠ 0 then { st with timers := clearTimer st.timers id } else st
  | none => st

/-- Lines 114 to 116 of `startFetching`: when `interval` is a number above 0,
`intervalRef.current = setInterval(fetchData, interval)`. -/
def schedule (st : AppState) : AppState :=
  match st.interval with
  | some q =>
    if q > 0 then
      { st with
        intervalRef := some st.nextTimerId
        timers := st.timers ++ [{ id := st.nextTimerId, period := q }]
        nextTimerId := st.nextTimerId + 1 }
    else st
  | none => st

/-- The function `startFetching` (lines 111 to 117). -/
def startFetching (B : Builtins) (clock : String → String) (st : AppState)
    (r : FetchResult) : AppState :=
  schedule (clearCurrent (fetchData B clock st r))

/-- The function `stopFetching` (lines 119 to 122). -/
def stopFetching (st : AppState) : AppState :=
  match st.intervalRef with
  | some id => { st with timers := clearTimer st.timers id, intervalRef := none }
  | none => st

/-- The function `handleStart`. -/
def handleStart (B : Builtins) (clock : String → String) (st : AppState)
    (r : FetchResult) : AppState :=
  startFetching B clock { st with isFetching := true } r

/-- The function `handleStop`. -/
def handleStop (st : AppState) : AppState :=
  stopFetching { st with isFetching := false }

/-- What can happen to the polling controls: a value is entered into the interval
input, the start or stop button is pressed, a timer fires `fetchData`. A tick runs
`fetchData` on the current state; the closure a timer holds may be older, which changes
nothing in the interval or in the timers. -/
inductive Event where
  | input (n : Option ℚ) : Event
  | start (clock : String → String) (r : FetchResult) : Event
  | stop : Event
  | tick (clock : String → String) (r : FetchResult) : Event

/-- The effect of one event. -/
def step (B : Builtins) (st : AppState) : Event → AppState
  | .input n => onIntervalChange st n
  | .start clock r => handleStart B clock st r
  | .stop => handleStop st
  | .tick clock r => fetchData B clock st r

/-- The effect of a sequence of events, oldest first. -/
def run (B : Builtins) (st : AppState) (events : List Event) : AppState :=
  events.foldl (step B) st

/-- The floor on the polling controls: the stored period and every live timer are at
least 100. -/
def Floored (st : AppState) : Prop :=
  (∀ q, st.interval = some q → 100 ≤ q) ∧ (∀ t ∈ st.timers, 100 ≤ t.period)

end Page

/-! ## `src/app/_page.js` -/

/-- The call `Number(d.value)`; `none` when the conversion throws a `TypeError`. An
object converts through its `toString`: the inherited one gives `"[object Object]"`,
which is `NaN`; an own one is no function, and then the object has no primitive value.
An array converts through its string. -/
def toNumber (B : Builtins) : Option Value → Option Num
  | none => some .nan
  | some (.json .null) => some (.fin 0)
  | some (.json (.bool b)) => some (.fin (if b then 1 else 0))
  | some (.json (.num q)) => some (.fin q)
  | some (.json (.infinity negative)) => some (if negative then .negInf else .posInf)
  | some (.json (.str s)) => some (B.strToNumber s)
  | some (.json (.arr items)) => (B.arrToString items).map B.strToNumber
  | some (.json (.obj fields)) => if (fields.lookup "toString").isSome then none else some .nan
  | some .nan => some .nan
  | some (.host h) => B.hostToNumber h

/-- The results of a `map` whose callback may throw: `none` as soon as one does. -/
def allSome {α : Type} : List (Option α) → Option (List α)
  | [] => some []
  | none :: _ => none
  | some a :: rest => (allSome rest).map (fun l => a :: l)

/-- The list `numericValues` (lines 62 to 67): the numbers `Number(d.value)` that are
not `NaN`; `none` when a conversion throws. -/
def numericValues (B : Builtins) (series : Series) : Option (List Num) :=
  (allSome (series.map (fun d => toNumber B d.value))).map
    (fun ns => ns.filter (fun n => n != .nan))

/-- The entry built by the second `map` (lines 72 to 78) from the entry `d`, whose
number is `n`: `{ ...d, normValue: !isNaN(n) ? n / max : undefined }`. -/
def rescaled (B : Builtins) (max : Num) (d : Obs) (n : Num) : Obs :=
  { d with normValue := if n = .nan then none else some (Num.div B n max).toValue }

/-- The normalization pass (lines 62 to 80) on the series `stored[path]`; `none` when a
conversion throws. When no number is left or the maximum is not above 0 the series is
not reassigned. -/
def normalize (B : Builtins) (series : Series) : Option Series :=
  match numericValues B series with
  | none => none
  | some [] => some series
  | some (x :: xs) =>
    let max := xs.foldl Num.max x
    if Num.lt (.fin 0) max then
      allSome (series.map (fun d => (toNumber B d.value).map (rescaled B max d)))
    else some series

/-- The state of `App` in `_page.js`, with the two `localStorage` records. -/
structure LegacyState where
  url : String
  data : Json
  selected : PathSet
  timeSeries : Store
  savedSelected : Option (List String)
  savedSeries : Option Store

namespace Legacy

/-- The body of `selected.forEach` in `_page.js` (lines 48 to 81). The source reassigns
`stored[path]` only when the maximum is above 0; `normalize` returns the series as it is
otherwise, so writing its result back is the same update. -/
def samplePath (B : Builtins) (json : Json) (clock : String → String) (stored : Store)
    (path : String) : Except String Store :=
  let keys := pathKeys path
  let value := resolve B json keys
  match pushEntry B stored path
      { timestamp := clock path, value := value, normValue := none } with
  | .ok stored =>
    match normalize B (seriesOf stored path) with
    | some series => .ok (stored.set path series)
    | none => .error B.cannotConvert
  | .error message => .error message

/-- The loop `selected.forEach(...)` (lines 48 to 81): the first `TypeError` ends it. -/
def sampleAll (B : Builtins) (json : Json) (clock : String → String) :
    List String → Store → Except String Store
  | [], stored => .ok stored
  | path :: rest, stored =>
    match samplePath B json clock stored path with
    | .ok stored => sampleAll B json clock rest stored
    | .error message => .error message

/-- The function `fetchData` of `_page.js` (lines 39 to 89). -/
def fetchData (B : Builtins) (clock : String → String) (st : LegacyState)
    (r : FetchResult) : LegacyState :=
  match fetchJson r with
  | .ok json =>
    match sampleAll B json clock st.selected.elems (st.savedSeries.getD []) with
    | .ok stored =>
      { st with data := json, savedSeries := some (reparse B stored), timeSeries := stored }
    | .error message => { st with data := errorDoc message }
  | .error message => { st with data := errorDoc message }

end Legacy

/-! ## Sample data -/

/-- An idealised runtime to run the definitions on concrete inputs. Its division is
exact; it inherits the members of `Object.prototype` only; its `Number` reads
`"Infinity"`, the strings made of decimal digits and the empty array as JavaScript does,
and everything else as `NaN`. The theorems hold for every `Builtins`. -/
def sampleBuiltins : Builtins :=
  { inherited := fun _ key =>
      if key ∈ objectPrototypeMembers then some (.host ⟨key⟩) else none
    objectMember := fun key => ⟨key⟩
    hostGet := fun _ _ => none
    unitString := fun _ key => .host ⟨key⟩
    strToNumber := fun s =>
      if s = "Infinity" then .posInf
      else if s.data.all Char.isDigit then
        .fin ((s.data.foldl (fun acc c => 10 * acc + (c.toNat - 48)) 0 : ℕ) : ℚ)
      else .nan
    arrToString := fun items => if items.isEmpty then some "" else some ","
    hostToNumber := fun _ => some .nan
    round := Num.fin
    round_mono := fun a b h => by simpa [Num.le] using h
    round_dyadic := fun _ _ _ _ => rfl
    reparseHost := fun _ => none
    notAFunction := "stored[path].push is not a function"
    cannotConvert := "Cannot convert object to primitive value" }

/-- A series with the raw values 3, 9, 6, not yet normalized. -/
def rawThreeNineSix : Series :=
  [ { timestamp := "10:00:00", value := some (.json (.num 3)), normValue := none },
    { timestamp := "10:00:03", value := some (.json (.num 9)), normValue := none },
    { timestamp := "10:00:06", value := some (.json (.num 6)), normValue := none } ]

/-- A series with the raw values -3, 9, not yet normalized. -/
def rawMinusThreeNine : Series :=
  [ { timestamp := "10:00:00", value := some (.json (.num (-3))), normValue := none },
    { timestamp := "10:00:03", value := some (.json (.num 9)), normValue := none } ]

/-- A series with the raw values `"Infinity"` (a string) and 3, not yet normalized. -/
def rawInfinityThree : Series :=
  [ { timestamp := "10:00:00", value := some (.json (.str "Infinity")), normValue := none },
    { timestamp := "10:00:03", value := some (.json (.num 3)), normValue := none } ]

/-- A series with the one raw value -2, carrying the normalized value 5. -/
def staleMinusTwo : Series :=
  [ { timestamp := "10:00:00", value := some (.json (.num (-2))),
      normValue := some (.json (.num 5)) } ]

/-- The document `{"a": {"b": 7}}`. -/
def docWithB : Json :=
  .obj [("a", .obj [("b", .num 7)])]

/-- The document `{"a": {}}`. -/
def docWithoutB : Json :=
  .obj [("a", .obj [])]

/-- The document `{"a": null}`. -/
def docNull : Json :=
  .obj [("a", .null)]

/-- The document `{"a": "xyz"}`. -/
def docText : Json :=
  .obj [("a", .str "xyz")]

/-- The document `{"n": 5, "toString": 1}`. -/
def docToString : Json :=
  .obj [("n", .num 5), ("toString", .num 1)]

/-- The document `{"x": 1e999}`, whose number parses to Infinity. -/
def docOverflow : Json :=
  .obj [("x", .infinity false)]

/-- The document `{"p": {"toString": 1}}`. -/
def docOwnToString : Json :=
  .obj [("p", .obj [("toString", .num 1)])]

/-- A series with the raw values `"up"` (a string that is no number) and -2. -/
def rawTextMinusTwo : Series :=
  [ { timestamp := "10:00:00", value := some (.json (.str "up")), normValue := none },
    { timestamp := "10:00:03", value := some (.json (.num (-2))), normValue := none } ]

/-- A state of `page.js` with the path `a.b` selected and nothing stored. -/
def pageStart : AppState :=
  { initialState none none with selected := ⟨["a.b"], by simp⟩ }

/-- A state of `page.js` with the tokens `root.n` and `toString` selected and nothing
stored. -/
def pageInherited : AppState :=
  { initialState none none with selected := ⟨["root.n", "toString"], by simp⟩ }

/-- A state of `page.js` with the token `root.x` selected and nothing stored. -/
def pageOverflow : AppState :=
  { initialState none none with selected := ⟨["root.x"], by simp⟩ }

/-- A state of `_page.js` with the path `a.b` selected and nothing stored. -/
def legacyStart : LegacyState :=
  { url := "http://numbersapi.com/random/math?jsonTTTTTTTT"
    data := .null
    selected := ⟨["a.b"], by simp⟩
    timeSeries := []
    savedSelected := none
    savedSeries := none }

/-- A state of `_page.js` with the token `root.p` selected and nothing stored. -/
def legacyOwnToString : LegacyState :=
  { url := "http://numbersapi.com/random/math?jsonTTTTTTTT"
    data := .null
    selected := ⟨["root.p"], by simp⟩
    timeSeries := []
    savedSelected := none
    savedSeries := none }

/-- A clock that reads the same time string for every path. -/
def clockAt (time : String) : String → String :=
  fun _ => time

/-! # Theorems -/

/-! ## The resolver and the path tokens -/

theorem foldl_resolveStep_none (B : Builtins) (ks : List String) :
    ks.foldl (resolveStep B) none = none := by
  induction ks with
  | nil => rfl
  | cons k ks ih => simpa [List.foldl, resolveStep] using ih

theorem resolve_cons (B : Builtins) (d : Json) (k : String) (ks : List String) :
    resolve B d (k :: ks) = ks.foldl (resolveStep B) (resolveStep B (some (.json d)) k) := rfl

theorem resolve_append (B : Builtins) (d : Json) (p ks : List String) :
    resolve B d (p ++ ks) = ks.foldl (resolveStep B) (resolve B d p) := by
  simp [resolve, List.foldl_append]

theorem specIndex_step (B : Builtins) (d v : Json) (k : String)
    (h : specIndex d k = some v) : resolveStep B (some (.json d)) k = some (.json v) := by
  cases d with
  | obj fields =>
    simp only [specIndex] at h
    simp [resolveStep, isTruthy, truthy, getProp, ownProp, h]
  | arr items =>
    simp only [specIndex] at h
    simp [resolveStep, isTruthy, truthy, getProp, ownProp, h]
  | null => simp [specIndex] at h
  | bool b => simp [specIndex] at h
  | num q => simp [specIndex] at h
  | infinity n => simp [specIndex] at h
  | str s => simp [specIndex] at h

theorem specResolve_some (B : Builtins) (d : Json) (ks : List String) (v : Json)
    (h : specResolve d ks = some v) : resolve B d ks = some (.json v) := by
  induction ks generalizing d with
  | nil =>
    simp only [specResolve, Option.some.injEq] at h
    subst h
    rfl
  | cons k ks ih =>
    rw [specResolve] at h
    cases hk : specIndex d k with
    | none => simp [hk] at h
    | some w =>
      simp only [hk] at h
      rw [resolve_cons, specIndex_step B d w k hk]
      exact ih w h

theorem resolve_falsy (B : Builtins) (d : Json) (p : List String) (k : String)
    (rest : List String) (w : Value) (hw : resolve B d p = some w)
    (hf : isTruthy w = false) : resolve B d (p ++ k :: rest) = none := by
  rw [resolve_append, hw, List.foldl_cons]
  have hs : resolveStep B (some w) k = none := by simp [resolveStep, hf]
  rw [hs]
  exact foldl_resolveStep_none B rest

theorem jsSplit_jsJoin (parts : List String) (hne : parts ≠ [])
    (h : ∀ p ∈ parts, '.' ∉ p.data) : jsSplit (jsJoin parts '.') '.' = parts := by
  unfold jsSplit jsJoin
  have h1 : ∀ l ∈ parts.map String.data, '.' ∉ l := by
    intro l hl
    obtain ⟨p, hp, rfl⟩ := List.mem_map.1 hl
    exact h p hp
  have h2 : parts.map String.data ≠ [] := by simpa using hne
  rw [List.splitOn_intercalate _ '.' h1 h2, List.map_map]
  conv_rhs => rw [← List.map_id parts]
  apply List.map_congr_left
  intro p _
  rfl

theorem pathToken_treeKeyPath (ks : List String) :
    pathToken (treeKeyPath ks) = jsJoin ("root" :: ks) '.' := by
  simp [pathToken, treeKeyPath]

theorem jsSplit_pathToken (ks : List String) (h : ∀ k ∈ ks, '.' ∉ k.data) :
    jsSplit (pathToken (treeKeyPath ks)) '.' = "root" :: ks := by
  rw [pathToken_treeKeyPath]
  apply jsSplit_jsJoin _ (List.cons_ne_nil _ _)
  intro p hp
  rcases List.mem_cons.1 hp with e | hp'
  · subst e
    decide
  · exact h p hp'

/-- C1, as stated, fails: against `{"a": "xyz"}` the keys `a`, `0` step into a string,
which is neither an object nor an array, yet the resolver yields the character `"x"`
instead of `Absent`. -/
theorem resolve_absent_iff_counterexample :
    ¬ (resolve sampleBuiltins docText ["a", "0"] = none ↔
        specResolve docText ["a", "0"] = none) := by
  intro h
  have hs : specResolve docText ["a", "0"] = none := rfl
  have hr : resolve sampleBuiltins docText ["a", "0"] = some (.json (.str "x")) := rfl
  have hn := h.2 hs
  rw [hr] at hn
  exact Option.noConfusion hn

/-- C1, amended. For the empty key sequence the resolver yields the document itself;
whenever every step of the key sequence indexes into an object that has the key or an
array that has the index, it yields the value found there, so it yields `Absent` only if
some step fails to index in that sense; and it yields `Absent` whenever the value
reached before a further key is `null`, `false`, 0 or the empty string. -/
theorem resolve_of_spec_present (B : Builtins) (d : Json) (ks : List String) :
    resolve B d [] = some (.json d) ∧
    (∀ v, specResolve d ks = some v → resolve B d ks = some (.json v)) ∧
    (resolve B d ks = none → specResolve d ks = none) ∧
    (∀ p k rest w, ks = p ++ k :: rest → resolve B d p = some (.json w) →
      (w = .null ∨ w = .bool false ∨ w = .num 0 ∨ w = .str "") →
      resolve B d ks = none) := by
  refine ⟨rfl, specResolve_some B d ks, ?_, ?_⟩
  · intro hr
    cases hs : specResolve d ks with
    | none => rfl
    | some v =>
      rw [specResolve_some B d ks v hs] at hr
      exact Option.noConfusion hr
  · intro p k rest w hks hw hf
    rw [hks]
    apply resolve_falsy B d p k rest (.json w) hw
    rcases hf with e | e | e | e <;> subst e <;> simp [isTruthy, truthy]

/-- C1, amended, at `{"a": {"b": 7}}` and the keys `a`, `b`: both resolutions yield 7;
and at `{"a": null}` and the same keys: the resolver yields `Absent`. -/
theorem resolve_of_spec_present_witness :
    (specResolve docWithB ["a", "b"] = some (.num 7) ∧
      resolve sampleBuiltins docWithB ["a", "b"] = some (.json (.num 7))) ∧
    (resolve sampleBuiltins docNull ["a"] = some (.json .null) ∧
      resolve sampleBuiltins docNull ["a", "b"] = none) :=
  ⟨⟨rfl, (resolve_of_spec_present sampleBuiltins docWithB ["a", "b"]).2.1 _ rfl⟩,
    ⟨rfl, (resolve_of_spec_present sampleBuiltins docNull ["a", "b"]).2.2.2
      ["a"] "b" [] .null rfl rfl (Or.inl rfl)⟩⟩

/-- C7, as stated, fails: the key `a.b` under the root gives the token `root.a.b`, which
decodes to the two keys `a`, `b`, and which is also the token of the key sequence
`a`, `b`. -/
theorem token_roundtrip_counterexample :
    pathKeys (pathToken (treeKeyPath ["a.b"])) ≠ ["a.b"] ∧
      (["a.b"] ≠ ["a", "b"] ∧
        pathToken (treeKeyPath ["a.b"]) = pathToken (treeKeyPath ["a", "b"])) := by
  decide

/-- C7, amended. For every key sequence whose keys contain no `.` and are not `root`,
joining the keys root-first with `.` and decoding the token as `fetchData` does returns
exactly the key sequence without the root label; and two key sequences whose keys
contain no `.` never produce the same token unless they are equal. -/
theorem token_roundtrip (ks ks' : List String)
    (h : ∀ k ∈ ks, '.' ∉ k.data) (h' : ∀ k ∈ ks', '.' ∉ k.data) :
    ((∀ k ∈ ks, k ≠ "root") → pathKeys (pathToken (treeKeyPath ks)) = ks) ∧
      (pathToken (treeKeyPath ks) = pathToken (treeKeyPath ks') → ks = ks') := by
  have hs := jsSplit_pathToken ks h
  constructor
  · intro hroot
    rw [pathKeys, hs]
    simp only [bne_self_eq_false, Bool.false_eq_true, not_false_eq_true, List.filter_cons_of_neg]
    rw [List.filter_eq_self]
    intro k hk
    simpa using hroot k hk
  · intro e
    have hs' := jsSplit_pathToken ks' h'
    rw [← e, hs] at hs'
    exact List.tail_eq_of_cons_eq hs'

/-- C7, amended, at the key sequences `a`, `b` and `root`, `x`: the first decodes to
itself, and the two tokens differ. -/
theorem token_roundtrip_witness :
    ((∀ k ∈ ["a", "b"], '.' ∉ k.data) ∧ (∀ k ∈ ["root", "x"], '.' ∉ k.data) ∧
      (∀ k ∈ ["a", "b"], k ≠ "root")) ∧
    (pathKeys (pathToken (treeKeyPath ["a", "b"])) = ["a", "b"] ∧
      (pathToken (treeKeyPath ["a", "b"]) = pathToken (treeKeyPath ["root", "x"]) →
        ["a", "b"] = ["root", "x"])) :=
  have h : ∀ k ∈ ["a", "b"], '.' ∉ k.data := by decide
  have h' : ∀ k ∈ ["root", "x"], '.' ∉ k.data := by decide
  have hr : ∀ k ∈ ["a", "b"], k ≠ "root" := by decide
  ⟨⟨h, h', hr⟩,
    (token_roundtrip ["a", "b"] ["root", "x"] h h').1 hr,
    (token_roundtrip ["a", "b"] ["root", "x"] h h').2⟩

/-! ## Numbers -/

theorem num_le_refl_of_ne_nan (a : Num) (h : a ≠ .nan) : Num.le a a = true := by
  cases a <;> simp [Num.le] at *

theorem num_le_trans (a b c : Num) (h1 : Num.le a b = true) (h2 : Num.le b c = true) :
    Num.le a c = true := by
  cases a <;> cases b <;> cases c <;> simp [Num.le] at *
  exact le_trans h1 h2

theorem num_le_antisymm (a b : Num) (h1 : Num.le a b = true) (h2 : Num.le b a = true) :
    a = b := by
  cases a <;> cases b <;> simp [Num.le] at *
  exact le_antisymm h1 h2

theorem num_lt_of_lt_of_le (a b c : Num) (h1 : Num.lt a b = true) (h2 : Num.le b c = true) :
    Num.lt a c = true := by
  cases a <;> cases b <;> cases c <;> simp [Num.le, Num.lt] at *
  exact lt_of_lt_of_le h1 h2

theorem num_not_lt_of_le (a b : Num) (h : Num.le a b = true) : Num.lt b a = false := by
  cases a <;> cases b <;> simp [Num.le, Num.lt] at *
  exact h

theorem num_max_eq (a b : Num) (ha : a ≠ .nan) (hb : b ≠ .nan) :
    Num.max a b = if Num.lt a b then b else a := by
  cases a <;> cases b <;> simp [Num.max] at *

theorem num_max_ne_nan (a b : Num) (ha : a ≠ .nan) (hb : b ≠ .nan) : Num.max a b ≠ .nan := by
  rw [num_max_eq a b ha hb]
  split <;> assumption

theorem num_le_max_left (a b : Num) (ha : a ≠ .nan) (hb : b ≠ .nan) :
    Num.le a (Num.max a b) = true := by
  rw [num_max_eq a b ha hb]
  cases a <;> cases b <;> simp [Num.le, Num.lt] at *
  rename_i x y
  by_cases hxy : x < y
  · simp [hxy, Num.le, le_of_lt hxy]
  · simp [hxy, Num.le]

theorem num_le_max_right (a b : Num) (ha : a ≠ .nan) (hb : b ≠ .nan) :
    Num.le b (Num.max a b) = true := by
  rw [num_max_eq a b ha hb]
  cases a <;> cases b <;> simp [Num.le, Num.lt] at *
  rename_i x y
  by_cases hxy : x < y
  · simp [hxy, Num.le]
  · simp [hxy, Num.le, not_lt.1 hxy]

theorem num_max_choice (a b : Num) (ha : a ≠ .nan) (hb : b ≠ .nan) :
    Num.max a b = a ∨ Num.max a b = b := by
  rw [num_max_eq a b ha hb]
  split
  · exact Or.inr rfl
  · exact Or.inl rfl

theorem foldl_max_ge_init (xs : List Num) (x : Num) (hx : x ≠ .nan)
    (hxs : ∀ y ∈ xs, y ≠ .nan) : Num.le x (xs.foldl Num.max x) = true := by
  induction xs generalizing x with
  | nil => exact num_le_refl_of_ne_nan x hx
  | cons z zs ih =>
    rw [List.foldl_cons]
    have hz := hxs z (List.mem_cons_self _ _)
    exact num_le_trans _ _ _ (num_le_max_left x z hx hz)
      (ih _ (num_max_ne_nan x z hx hz) (fun y hy => hxs y (List.mem_cons_of_mem _ hy)))

theorem foldl_max_ge (xs : List Num) (x : Num) (h : ∀ y ∈ x :: xs, y ≠ .nan) :
    ∀ y ∈ x :: xs, Num.le y (xs.foldl Num.max x) = true := by
  induction xs generalizing x with
  | nil =>
    intro y hy
    rw [List.mem_singleton] at hy
    subst hy
    exact num_le_refl_of_ne_nan y (h y (List.mem_cons_self _ _))
  | cons z zs ih =>
    have hx := h x (List.mem_cons_self _ _)
    have hz := h z (List.mem_cons_of_mem _ (List.mem_cons_self _ _))
    have hzs : ∀ y ∈ zs, y ≠ .nan :=
      fun y hy => h y (List.mem_cons_of_mem _ (List.mem_cons_of_mem _ hy))
    have hm := num_max_ne_nan x z hx hz
    intro y hy
    rw [List.foldl_cons]
    rcases List.mem_cons.1 hy with e | hy'
    · subst e
      exact num_le_trans _ _ _ (num_le_max_left _ z hx hz) (foldl_max_ge_init zs _ hm hzs)
    · rcases List.mem_cons.1 hy' with e | hy''
      · subst e
        exact num_le_trans _ _ _ (num_le_max_right x _ hx hz) (foldl_max_ge_init zs _ hm hzs)
      · refine ih (Num.max x z) ?_ y (List.mem_cons_of_mem _ hy'')
        intro w hw
        rcases List.mem_cons.1 hw with e | hw'
        · rw [e]; exact hm
        · exact hzs w hw'

theorem foldl_max_mem (xs : List Num) (x : Num) (h : ∀ y ∈ x :: xs, y ≠ .nan) :
    xs.foldl Num.max x ∈ x :: xs := by
  induction xs generalizing x with
  | nil => simp
  | cons z zs ih =>
    have hx := h x (List.mem_cons_self _ _)
    have hz := h z (List.mem_cons_of_mem _ (List.mem_cons_self _ _))
    have hzs : ∀ y ∈ zs, y ≠ .nan :=
      fun y hy => h y (List.mem_cons_of_mem _ (List.mem_cons_of_mem _ hy))
    rw [List.foldl_cons]
    have hmem := ih (Num.max x z) (by
      intro w hw
      rcases List.mem_cons.1 hw with e | hw'
      · rw [e]; exact num_max_ne_nan x z hx hz
      · exact hzs w hw')
    rcases List.mem_cons.1 hmem with e | h'
    · rw [e]
      rcases num_max_choice x z hx hz with c | c
      · rw [c]; exact List.mem_cons_self _ _
      · rw [c]; exact List.mem_cons_of_mem _ (List.mem_cons_self _ _)
    · exact List.mem_cons_of_mem _ (List.mem_cons_of_mem _ h')

/-- The maximum computed by `Math.max(...numericValues)` is the maximum of the list. -/
theorem foldl_max_eq (xs : List Num) (x m : Num) (h : ∀ y ∈ x :: xs, y ≠ .nan)
    (hm : m ∈ x :: xs) (hmax : ∀ y ∈ x :: xs, Num.le y m = true) :
    xs.foldl Num.max x = m :=
  num_le_antisymm _ _ (hmax _ (foldl_max_mem xs x h)) (foldl_max_ge xs x h m hm)

/-! ## The normalization pass -/

theorem allSome_map_eq_some {α β : Type} (f : α → Option β) (l : List α) (r : List β) :
    allSome (l.map f) = some r ↔ List.Forall₂ (fun a b => f a = some b) l r := by
  induction l generalizing r with
  | nil =>
    cases r with
    | nil => simp [allSome]
    | cons b r => simp [allSome]
  | cons a l ih =>
    cases hfa : f a with
    | none =>
      simp only [List.map_cons, hfa, allSome]
      constructor
      · intro h
        exact Option.noConfusion h
      · intro h
        cases h with
        | cons hab _ => rw [hfa] at hab; exact Option.noConfusion hab
    | some b =>
      simp only [List.map_cons, hfa, allSome]
      cases r with
      | nil =>
        constructor
        · intro h
          cases hr : allSome (l.map f) with
          | none => simp [hr] at h
          | some r' => simp [hr] at h
        · intro h
          cases h
      | cons b' r' =>
        constructor
        · intro h
          cases hr : allSome (l.map f) with
          | none => simp [hr] at h
          | some r'' =>
            simp only [hr, Option.map_some', Option.some.injEq, List.cons.injEq] at h
            obtain ⟨hb, hr'⟩ := h
            subst hb hr'
            exact List.Forall₂.cons hfa ((ih r'').1 hr)
        · intro h
          cases h with
          | cons hab hrest =>
            rw [hfa] at hab
            cases hab
            rw [(ih r').2 hrest]
            rfl

theorem forall₂_some_mem_right {α β : Type} (f : α → Option β) (l : List α) (r : List β)
    (h : List.Forall₂ (fun a b => f a = some b) l r) (b : β) :
    b ∈ r ↔ ∃ a ∈ l, f a = some b := by
  induction h with
  | nil => simp
  | @cons a b' l' r' hab _ ih =>
    constructor
    · intro hb
      rcases List.mem_cons.1 hb with e | hb'
      · subst e
        exact ⟨a, List.mem_cons_self _ _, hab⟩
      · obtain ⟨a', ha', hfa'⟩ := ih.1 hb'
        exact ⟨a', List.mem_cons_of_mem _ ha', hfa'⟩
    · rintro ⟨a', ha', hfa'⟩
      rcases List.mem_cons.1 ha' with e | ha''
      · subst e
        rw [hab] at hfa'
        cases hfa'
        exact List.mem_cons_self _ _
      · exact List.mem_cons_of_mem _ (ih.2 ⟨a', ha'', hfa'⟩)

theorem allSome_map_map {α β γ : Type} (f : α → Option β) (g : α → β → γ) (l : List α)
    (r : List β) (h : List.Forall₂ (fun a b => f a = some b) l r) :
    ∃ t, allSome (l.map (fun a => (f a).map (g a))) = some t ∧
      List.Forall₂ (fun a c => ∃ b, f a = some b ∧ c = g a b) l t := by
  induction h with
  | nil => exact ⟨[], rfl, List.Forall₂.nil⟩
  | @cons a b l' r' hab _ ih =>
    obtain ⟨t, ht, hft⟩ := ih
    refine ⟨g a b :: t, ?_, List.Forall₂.cons ⟨b, hab, rfl⟩ hft⟩
    simp [allSome, hab, ht]

theorem numericValues_eq_some (B : Builtins) (series : Series) (l : List Num)
    (h : numericValues B series = some l) :
    ∃ ns, List.Forall₂ (fun d n => toNumber B d.value = some n) series ns ∧
      l = ns.filter (fun n => n != .nan) := by
  unfold numericValues at h
  cases hp : allSome (series.map (fun d => toNumber B d.value)) with
  | none => simp [hp] at h
  | some ns =>
    simp only [hp, Option.map_some', Option.some.injEq] at h
    exact ⟨ns, (allSome_map_eq_some _ series ns).1 hp, h.symm⟩

/-- The members of `numericValues` are the numbers of the entries that are not `NaN`. -/
theorem mem_numericValues (B : Builtins) (series : Series) (l : List Num)
    (h : numericValues B series = some l) (x : Num) :
    x ∈ l ↔ x ≠ .nan ∧ ∃ d ∈ series, toNumber B d.value = some x := by
  obtain ⟨ns, hns, rfl⟩ := numericValues_eq_some B series l h
  rw [List.mem_filter, forall₂_some_mem_right _ series ns hns x]
  constructor
  · rintro ⟨hx, hne⟩
    exact ⟨by simpa using hne, hx⟩
  · rintro ⟨hne, hx⟩
    exact ⟨hx, by simpa using hne⟩

theorem numericValues_ne_nan (B : Builtins) (series : Series) (l : List Num)
    (h : numericValues B series = some l) : ∀ x ∈ l, x ≠ .nan :=
  fun x hx => ((mem_numericValues B series l h x).1 hx).1

theorem numericValues_of_values (B : Builtins) (s t : Series)
    (h : t.map (fun d => d.value) = s.map (fun d => d.value)) :
    numericValues B t = numericValues B s := by
  have hs : ∀ u : Series, numericValues B u =
      (allSome ((u.map (fun d => d.value)).map (toNumber B))).map
        (fun ns => ns.filter (fun n => n != .nan)) := by
    intro u
    simp only [numericValues, List.map_map]
    rfl
  rw [hs, hs, h]

/-- The pass with the maximum at hand: a maximum above 0 rescales every entry. -/
theorem normalize_of_max_pos (B : Builtins) (series : Series) (l : List Num) (m : Num)
    (hl : numericValues B series = some l) (hm : m ∈ l)
    (hmax : ∀ x ∈ l, Num.le x m = true) (hpos : Num.lt (.fin 0) m = true) :
    ∃ s', normalize B series = some s' ∧
      List.Forall₂ (fun d d' => ∃ n, toNumber B d.value = some n ∧ d' = rescaled B m d n)
        series s' := by
  obtain ⟨ns, hns, _⟩ := numericValues_eq_some B series l hl
  have hnn := numericValues_ne_nan B series l hl
  unfold normalize
  rw [hl]
  cases l with
  | nil => simp at hm
  | cons x xs =>
    simp only [foldl_max_eq xs x m hnn hm hmax, hpos, if_true]
    exact allSome_map_map (fun d => toNumber B d.value) (rescaled B m) series ns hns

/-- The pass returns the series as it is when no number of it is above 0. -/
theorem normalize_of_no_pos (B : Builtins) (series : Series) (l : List Num)
    (hl : numericValues B series = some l) (h : ∀ x ∈ l, Num.lt (.fin 0) x = false) :
    normalize B series = some series := by
  have hnn := numericValues_ne_nan B series l hl
  unfold normalize
  rw [hl]
  cases l with
  | nil => rfl
  | cons x xs =>
    have hle : Num.lt (.fin 0) (xs.foldl Num.max x) = false := h _ (foldl_max_mem xs x hnn)
    simp only [hle, Bool.false_eq_true, if_false]

/-- Either some number of the series is above 0, and then the maximum is, or none is. -/
theorem normalize_cases (l : List Num) (hnn : ∀ x ∈ l, x ≠ .nan) :
    (∃ m, m ∈ l ∧ (∀ x ∈ l, Num.le x m = true) ∧ Num.lt (.fin 0) m = true) ∨
      (∀ x ∈ l, Num.lt (.fin 0) x = false) := by
  cases l with
  | nil => right; simp
  | cons x xs =>
    cases hpos : Num.lt (.fin 0) (xs.foldl Num.max x) with
    | true => exact Or.inl ⟨_, foldl_max_mem xs x hnn, foldl_max_ge xs x hnn, hpos⟩
    | false =>
      right
      intro y hy
      cases hy0 : Num.lt (.fin 0) y with
      | false => rfl
      | true =>
        rw [num_lt_of_lt_of_le _ _ _ hy0 (foldl_max_ge xs x hnn y hy)] at hpos
        exact Bool.noConfusion hpos

theorem rescaled_values (B : Builtins) (m : Num) (s s' : Series)
    (h : List.Forall₂ (fun d d' => ∃ n, toNumber B d.value = some n ∧ d' = rescaled B m d n)
      s s') : s'.map (fun d => d.value) = s.map (fun d => d.value) := by
  induction h with
  | nil => rfl
  | cons hab _ ih =>
    obtain ⟨n, _, rfl⟩ := hab
    simp [rescaled, ih]

theorem rescaled_again (B : Builtins) (m : Num) (s s' s'' : Series)
    (h : List.Forall₂ (fun d d' => ∃ n, toNumber B d.value = some n ∧ d' = rescaled B m d n)
      s s')
    (h' : List.Forall₂ (fun d d' => ∃ n, toNumber B d.value = some n ∧ d' = rescaled B m d n)
      s' s'') : s'' = s' := by
  induction h generalizing s'' with
  | nil => cases h'; rfl
  | cons hab _ ih =>
    cases h' with
    | cons hbc hrest =>
      obtain ⟨n, hn, rfl⟩ := hab
      obtain ⟨n', hn', rfl⟩ := hbc
      have hv : toNumber B (rescaled B m _ n).value = some n := hn
      rw [hv] at hn'
      cases hn'
      rw [ih _ hrest]
      rfl

/-- C4, as stated, fails: the raw values `"Infinity"`, 3 both parse as numbers and their
maximum, Infinity, is above 0; the pass stores `NaN` for the first entry and 0 for the
second, so no maximum above 0 makes the stored values the exact quotients. -/
theorem normalize_quotient_counterexample :
    normalize sampleBuiltins rawInfinityThree =
      some
        [ { timestamp := "10:00:00", value := some (.json (.str "Infinity")),
            normValue := some .nan },
          { timestamp := "10:00:03", value := some (.json (.num 3)),
            normValue := some (.json (.num 0)) } ] ∧
    ¬ ∃ m : ℚ, 0 < m ∧
        ∀ o ∈ (normalize sampleBuiltins rawInfinityThree).getD [], ∀ a : ℚ,
          toNumber sampleBuiltins o.value = some (.fin a) →
            o.normValue = some (.json (.num (a / m))) := by
  have hn : normalize sampleBuiltins rawInfinityThree =
      some
        [ { timestamp := "10:00:00", value := some (.json (.str "Infinity")),
            normValue := some .nan },
          { timestamp := "10:00:03", value := some (.json (.num 3)),
            normValue := some (.json (.num 0)) } ] := by
    simp [normalize, numericValues, allSome, toNumber, rawInfinityThree, sampleBuiltins,
      Num.max, Num.lt, rescaled, Num.div, Num.toValue]
  refine ⟨hn, ?_⟩
  rintro ⟨m, hm, h⟩
  rw [hn] at h
  have h3 := h _ (List.mem_cons_of_mem _ (List.mem_cons_self _ _)) 3 rfl
  simp only [Option.getD_some, Option.some.injEq, Value.json.injEq, Json.num.injEq] at h3
  have hpos : (0 : ℚ) < 3 / m := div_pos (by norm_num) hm
  rw [← h3] at hpos
  exact lt_irrefl _ hpos

theorem forall₂_imp_mem {α β : Type} (R S : α → β → Prop) (l : List α) (r : List β)
    (h : List.Forall₂ R l r) (himp : ∀ a b, a ∈ l → R a b → S a b) :
    List.Forall₂ S l r := by
  induction h with
  | nil => exact List.Forall₂.nil
  | @cons a b l' r' hab _ ih =>
    exact List.Forall₂.cons (himp a b (List.mem_cons_self _ _) hab)
      (ih (fun a' b' ha' => himp a' b' (List.mem_cons_of_mem _ ha')))

/-- C4, amended. When the conversions complete and the maximum `m` of the numbers the raw
values parse to (every number that is not `NaN`, an infinity included) is above 0, the
normalization pass of `_page.js` completes and keeps the entries in place with their
timestamp and raw value; it sets the normalized value of every entry whose raw value
parses as a number `n` to the floating-point quotient `n / m`, which is the rounding of
the rational quotient for finite `n` and `m`, 0 for finite `n` and infinite `m`, and
`NaN` when `n` is Infinity; and it leaves the normalized value unset for every entry
whose raw value parses as `NaN`. -/
theorem normalize_sets_quotient (B : Builtins) (series : Series) (l : List Num) (m : Num)
    (hl : numericValues B series = some l) (hm : m ∈ l)
    (hmax : ∀ x ∈ l, Num.le x m = true) (hpos : Num.lt (.fin 0) m = true) :
    ∃ s', normalize B series = some s' ∧
      List.Forall₂
        (fun d d' => d'.timestamp = d.timestamp ∧ d'.value = d.value ∧
          (∀ n, toNumber B d.value = some n → n ≠ .nan →
            d'.normValue = some (Num.div B n m).toValue) ∧
          (∀ a b, toNumber B d.value = some (.fin a) → m = .fin b →
            d'.normValue = some (B.round (a / b)).toValue) ∧
          (∀ a, toNumber B d.value = some (.fin a) → m = .posInf →
            d'.normValue = some (.json (.num 0))) ∧
          (toNumber B d.value = some .posInf → d'.normValue = some .nan) ∧
          (toNumber B d.value = some .nan → d'.normValue = none))
        series s' := by
  obtain ⟨s', hs', hf⟩ := normalize_of_max_pos B series l m hl hm hmax hpos
  refine ⟨s', hs', forall₂_imp_mem _ _ series s' hf ?_⟩
  rintro d d' hd ⟨n, hn, rfl⟩
  refine ⟨rfl, rfl, ?_, ?_, ?_, ?_, ?_⟩
  · intro n' hn' hne
    rw [hn] at hn'
    cases hn'
    simp [rescaled, hne]
  · intro a b ha hb
    rw [hn] at ha
    cases ha
    subst hb
    have hb0 : b ≠ 0 := by
      intro e
      subst e
      simp [Num.lt] at hpos
    simp [rescaled, Num.div, hb0]
  · intro a ha hinf
    rw [hn] at ha
    cases ha
    subst hinf
    simp [rescaled, Num.div, Num.toValue]
  · intro hinf
    rw [hn] at hinf
    cases hinf
    have hmem : Num.posInf ∈ l :=
      (mem_numericValues B series l hl _).2 ⟨by simp, d, hd, hn⟩
    have hle := hmax _ hmem
    have hmi : m = .posInf := by
      cases m <;> simp [Num.le] at hle
      rfl
    subst hmi
    simp [rescaled, Num.div, Num.toValue]
  · intro hnan
    rw [hn] at hnan
    cases hnan
    simp [rescaled]

/-- In every runtime the raw values 3, 9, 6 get the rounded quotients of 3 by 9 and of 6
by 9, and 1. -/
theorem normalize_rawThreeNineSix (B : Builtins) :
    normalize B rawThreeNineSix =
      some
        [ { timestamp := "10:00:00", value := some (.json (.num 3)),
            normValue := some (B.round (3 / 9)).toValue },
          { timestamp := "10:00:03", value := some (.json (.num 9)),
            normValue := some (.json (.num 1)) },
          { timestamp := "10:00:06", value := some (.json (.num 6)),
            normValue := some (B.round (6 / 9)).toValue } ] := by
  have h1 : B.round 1 = .fin 1 := by
    have h := B.round_dyadic 1 0 (by norm_num) (by norm_num)
    simpa using h
  simp [normalize, numericValues, allSome, toNumber, rawThreeNineSix,
    Num.max, Num.lt, rescaled, Num.div, Num.toValue]
  norm_num [Num.max, Num.lt, Num.div, Num.toValue]
  rw [h1]

/-- C4, amended, at the raw values 3, 9, 6: the maximum is 9, the normalized values are
the rounded quotients of 3 by 9 and of 6 by 9, and 1. -/
theorem normalize_sets_quotient_witness :
    (numericValues sampleBuiltins rawThreeNineSix = some [.fin 3, .fin 9, .fin 6] ∧
      Num.fin 9 ∈ [Num.fin 3, .fin 9, .fin 6] ∧
      (∀ x ∈ [Num.fin 3, .fin 9, .fin 6], Num.le x (.fin 9) = true) ∧
      Num.lt (.fin 0) (.fin 9) = true) ∧
    (∃ s', normalize sampleBuiltins rawThreeNineSix = some s' ∧
      List.Forall₂
        (fun d d' => d'.timestamp = d.timestamp ∧ d'.value = d.value ∧
          (∀ n, toNumber sampleBuiltins d.value = some n → n ≠ .nan →
            d'.normValue = some (Num.div sampleBuiltins n (.fin 9)).toValue) ∧
          (∀ a b, toNumber sampleBuiltins d.value = some (.fin a) → Num.fin 9 = .fin b →
            d'.normValue = some (sampleBuiltins.round (a / b)).toValue) ∧
          (∀ a, toNumber sampleBuiltins d.value = some (.fin a) → Num.fin 9 = .posInf →
            d'.normValue = some (.json (.num 0))) ∧
          (toNumber sampleBuiltins d.value = some .posInf → d'.normValue = some .nan) ∧
          (toNumber sampleBuiltins d.value = some .nan → d'.normValue = none))
        rawThreeNineSix s') ∧
    normalize sampleBuiltins rawThreeNineSix =
      some
        [ { timestamp := "10:00:00", value := some (.json (.num 3)),
            normValue := some (sampleBuiltins.round (3 / 9)).toValue },
          { timestamp := "10:00:03", value := some (.json (.num 9)),
            normValue := some (.json (.num 1)) },
          { timestamp := "10:00:06", value := some (.json (.num 6)),
            normValue := some (sampleBuiltins.round (6 / 9)).toValue } ] :=
  have hl : numericValues sampleBuiltins rawThreeNineSix = some [.fin 3, .fin 9, .fin 6] := by
    simp [numericValues, allSome, toNumber, rawThreeNineSix]
  have hm : Num.fin 9 ∈ [Num.fin 3, .fin 9, .fin 6] := by simp
  have hmax : ∀ x ∈ [Num.fin 3, .fin 9, .fin 6], Num.le x (.fin 9) = true := by
    intro x hx
    simp at hx
    rcases hx with rfl | rfl | rfl <;> simp [Num.le] <;> norm_num
  have hpos : Num.lt (.fin 0) (.fin 9) = true := by simp [Num.lt]
  ⟨⟨hl, hm, hmax, hpos⟩,
    normalize_sets_quotient sampleBuiltins rawThreeNineSix _ _ hl hm hmax hpos,
    normalize_rawThreeNineSix sampleBuiltins⟩

/-- The rounded quotient of -3 by 9 is below 0 in every runtime. -/
theorem round_minus_third (B : Builtins) :
    Num.le (B.round (-3 / 9)) (.fin (-1 / 4)) = true := by
  have h1 := B.round_mono (-3 / 9) (-1 / 4) (by norm_num)
  have h2 := B.round_dyadic (-1) 2 (by norm_num) (by norm_num)
  have h3 : ((-1 : ℤ) : ℚ) / 2 ^ 2 = -1 / 4 := by norm_num
  rw [h3] at h2
  rw [h2] at h1
  exact h1

/-- In every runtime the raw values -3, 9 have the maximum 9 and the pass gives the first
entry the rounded quotient of -3 by 9, which is below 0. -/
theorem minus_three_nine_out_of_range (B : Builtins) :
    ¬ ∀ o ∈ (normalize B rawMinusThreeNine).getD [],
        o.normValue = none ∨
          ∃ q : ℚ, o.normValue = some (.json (.num q)) ∧ 0 ≤ q ∧ q ≤ 1 := by
  have hn : normalize B rawMinusThreeNine =
      some
        [ { timestamp := "10:00:00", value := some (.json (.num (-3))),
            normValue := some (B.round (-3 / 9)).toValue },
          { timestamp := "10:00:03", value := some (.json (.num 9)),
            normValue := some (B.round (9 / 9)).toValue } ] := by
    simp [normalize, numericValues, allSome, toNumber, rawMinusThreeNine,
      Num.max, Num.lt, rescaled, Num.div, Num.toValue]
    norm_num [Num.max, Num.lt, Num.div, Num.toValue]
  rw [hn]
  intro h
  have hle := round_minus_third B
  rcases h _ (List.mem_cons_self _ _) with h0 | ⟨q, hq, hq0, _⟩
  · exact Option.noConfusion h0
  · simp only [Option.some.injEq] at hq
    cases hr : B.round (-3 / 9) with
    | nan => rw [hr] at hq; simp [Num.toValue] at hq
    | negInf => rw [hr] at hq; simp [Num.toValue] at hq
    | posInf => rw [hr] at hq; simp [Num.toValue] at hq
    | fin x =>
      rw [hr] at hq hle
      simp only [Num.toValue, Value.json.injEq, Json.num.injEq] at hq
      subst hq
      have hx : x ≤ -1 / 4 := by simpa [Num.le] using hle
      linarith

/-- C5, as stated, fails: the raw values -3, 9 have the maximum 9, and the pass gives the
first entry the quotient of -3 by 9, which is below 0. -/
theorem normalize_range_counterexample :
    ¬ ∀ o ∈ (normalize sampleBuiltins rawMinusThreeNine).getD [],
        o.normValue = none ∨
          ∃ q : ℚ, o.normValue = some (.json (.num q)) ∧ 0 ≤ q ∧ q ≤ 1 :=
  minus_three_nine_out_of_range sampleBuiltins

theorem round_zero (B : Builtins) : B.round 0 = .fin 0 := by
  have h := B.round_dyadic 0 0 (by norm_num) (by norm_num)
  simpa using h

theorem round_one (B : Builtins) : B.round 1 = .fin 1 := by
  have h := B.round_dyadic 1 0 (by norm_num) (by norm_num)
  simpa using h

/-- The quotient of a number by a maximum above 0 that it does not exceed: `NaN` only
when the number is infinite, and otherwise at most 1, and at least 0 when the number
is. -/
theorem div_by_max (B : Builtins) (n m : Num) (hle : Num.le n m = true)
    (hpos : Num.lt (.fin 0) m = true) :
    (Num.div B n m = .nan ∧ (n = .posInf ∨ n = .negInf)) ∨
      (Num.le (Num.div B n m) (.fin 1) = true ∧
        (Num.le (.fin 0) n = true → Num.le (.fin 0) (Num.div B n m) = true)) := by
  cases m with
  | nan => simp [Num.lt] at hpos
  | negInf => simp [Num.lt] at hpos
  | posInf =>
    cases n with
    | nan => simp [Num.le] at hle
    | negInf => exact Or.inl ⟨rfl, Or.inr rfl⟩
    | posInf => exact Or.inl ⟨rfl, Or.inl rfl⟩
    | fin a =>
      right
      simp [Num.div, Num.le]
  | fin b =>
    have hb : 0 < b := by simpa [Num.lt] using hpos
    cases n with
    | nan => simp [Num.le] at hle
    | posInf => simp [Num.le] at hle
    | negInf =>
      right
      simp [Num.div, Num.le, le_of_lt hb]
    | fin a =>
      right
      have hab : a ≤ b := by simpa [Num.le] using hle
      have hb0 : b ≠ 0 := ne_of_gt hb
      have hdiv : Num.div B (.fin a) (.fin b) = B.round (a / b) := by
        simp [Num.div, hb0]
      rw [hdiv]
      constructor
      · have h1 := B.round_mono (a / b) 1 ((div_le_one hb).2 hab)
        rw [round_one] at h1
        exact h1
      · intro h0
        have ha : 0 ≤ a := by simpa [Num.le] using h0
        have h1 := B.round_mono 0 (a / b) (div_nonneg ha (le_of_lt hb))
        rw [round_zero] at h1
        exact h1

theorem forall₂_mem_right {α β : Type} (R : α → β → Prop) (l : List α) (r : List β)
    (h : List.Forall₂ R l r) (b : β) (hb : b ∈ r) : ∃ a, a ∈ l ∧ R a b := by
  induction h with
  | nil => simp at hb
  | @cons a b' l' r' hab _ ih =>
    rcases List.mem_cons.1 hb with e | hb'
    · subst e
      exact ⟨a, List.mem_cons_self _ _, hab⟩
    · obtain ⟨a', ha', hr⟩ := ih hb'
      exact ⟨a', List.mem_cons_of_mem _ ha', hr⟩

/-- C5, amended. For every series on which the normalization pass of `_page.js`
completes: when no raw value parses as a number above 0 the pass returns the series as
it is, normalized values included; otherwise the normalized value of every entry is
unset, or `NaN` (only for an entry whose raw value parses as an infinity), or a number
that is at most 1, and at least 0 when the raw value parses as a number that is at
least 0. -/
theorem normalize_at_most_one (B : Builtins) (series s' : Series) (l : List Num)
    (hl : numericValues B series = some l) (hs : normalize B series = some s') :
    ((∀ x ∈ l, Num.lt (.fin 0) x = false) → s' = series) ∧
    ((∃ x ∈ l, Num.lt (.fin 0) x = true) →
      ∀ o ∈ s',
        o.normValue = none ∨
        (o.normValue = some .nan ∧
          (toNumber B o.value = some .posInf ∨ toNumber B o.value = some .negInf)) ∨
        ∃ x : Num, o.normValue = some x.toValue ∧ Num.le x (.fin 1) = true ∧
          (∀ n, toNumber B o.value = some n → Num.le (.fin 0) n = true →
            Num.le (.fin 0) x = true)) := by
  constructor
  · intro hno
    rw [normalize_of_no_pos B series l hl hno] at hs
    exact (Option.some.inj hs).symm
  · rintro ⟨x, hx, hxpos⟩
    rcases normalize_cases l (numericValues_ne_nan B series l hl) with
      ⟨m, hm, hmax, hpos⟩ | hno
    · obtain ⟨t, ht, hf⟩ := normalize_of_max_pos B series l m hl hm hmax hpos
      rw [ht] at hs
      cases hs
      intro o ho
      obtain ⟨d, hd, n, hn, rfl⟩ := forall₂_mem_right _ series _ hf o ho
      have hv : toNumber B (rescaled B m d n).value = some n := hn
      by_cases hnan : n = .nan
      · left
        simp [rescaled, hnan]
      · right
        have hnl : n ∈ l := (mem_numericValues B series l hl n).2 ⟨hnan, d, hd, hn⟩
        rcases div_by_max B n m (hmax n hnl) hpos with ⟨hd, hinf⟩ | ⟨h1, h0⟩
        · left
          refine ⟨by simp [rescaled, hnan, hd, Num.toValue], ?_⟩
          rw [hv]
          rcases hinf with e | e
          · exact Or.inl (by rw [e])
          · exact Or.inr (by rw [e])
        · right
          refine ⟨Num.div B n m, by simp [rescaled, hnan], h1, ?_⟩
          intro n' hn' hn0
          rw [hv] at hn'
          cases hn'
          exact h0 hn0
    · rw [hno x hx] at hxpos
      exact Bool.noConfusion hxpos

/-- C5, amended, at the raw values -3, 9: the pass completes, 9 is above 0, and each
normalized value is a number that is at most 1. -/
theorem normalize_at_most_one_witness :
    (numericValues sampleBuiltins rawMinusThreeNine = some [.fin (-3), .fin 9] ∧
      (∃ s', normalize sampleBuiltins rawMinusThreeNine = some s') ∧
      (∃ x ∈ [Num.fin (-3), .fin 9], Num.lt (.fin 0) x = true)) ∧
    ∀ o ∈ (normalize sampleBuiltins rawMinusThreeNine).getD [],
      o.normValue = none ∨
      (o.normValue = some .nan ∧
        (toNumber sampleBuiltins o.value = some .posInf ∨
          toNumber sampleBuiltins o.value = some .negInf)) ∨
      ∃ x : Num, o.normValue = some x.toValue ∧ Num.le x (.fin 1) = true ∧
        (∀ n, toNumber sampleBuiltins o.value = some n → Num.le (.fin 0) n = true →
          Num.le (.fin 0) x = true) :=
  have hl : numericValues sampleBuiltins rawMinusThreeNine = some [.fin (-3), .fin 9] := by
    simp [numericValues, allSome, toNumber, rawMinusThreeNine]
  have hx : ∃ x ∈ [Num.fin (-3), .fin 9], Num.lt (.fin 0) x = true :=
    ⟨.fin 9, by simp, by simp [Num.lt]⟩
  have hs : ∃ s', normalize sampleBuiltins rawMinusThreeNine = some s' := by
    obtain ⟨s', hs', _⟩ := normalize_of_max_pos sampleBuiltins rawMinusThreeNine _ (.fin 9) hl
      (by simp) (by
        intro x hx
        simp at hx
        rcases hx with rfl | rfl <;> norm_num [Num.le]) (by simp [Num.lt])
    exact ⟨s', hs'⟩
  ⟨⟨hl, hs, hx⟩, by
    obtain ⟨s', hs'⟩ := hs
    rw [hs']
    exact (normalize_at_most_one sampleBuiltins rawMinusThreeNine s' _ hl hs').2 hx⟩

/-- C6, as stated, fails: the series with the one raw value -2 and the normalized value
5 has the maximum -2, and the pass returns it as it is, the normalized value 5
included. -/
theorem normalize_unset_counterexample :
    ¬ ((numericValues sampleBuiltins staleMinusTwo = some [] ∨
          ∃ l m, numericValues sampleBuiltins staleMinusTwo = some l ∧ m ∈ l ∧
            (∀ x ∈ l, Num.le x m = true) ∧ Num.le m (.fin 0) = true) →
        ∀ o ∈ (normalize sampleBuiltins staleMinusTwo).getD [], o.normValue = none) := by
  have hl : numericValues sampleBuiltins staleMinusTwo = some [.fin (-2)] := by
    simp [numericValues, allSome, toNumber, staleMinusTwo]
  have hn : normalize sampleBuiltins staleMinusTwo = some staleMinusTwo := by
    apply normalize_of_no_pos _ _ _ hl
    intro x hx
    rw [List.mem_singleton] at hx
    subst hx
    simp [Num.lt]
  intro h
  have hall := h (Or.inr ⟨_, .fin (-2), hl, List.mem_singleton.2 rfl, by
    intro x hx
    rw [List.mem_singleton] at hx
    subst hx
    simp [Num.le], by simp [Num.le]⟩)
  rw [hn] at hall
  have h0 := hall _ (List.mem_cons_self _ _)
  exact Option.noConfusion h0

/-- C6, amended. For every series on which the conversions of the normalization pass of
`_page.js` complete, if no raw value parses as a number, or if the maximum of the
numbers they parse to is 0 or negative, then the pass returns the series as it is: every
entry keeps the normalized value it had, so the normalized values are all unset after
the pass when they all were before it. -/
theorem normalize_unset (B : Builtins) (series : Series) (l : List Num)
    (hl : numericValues B series = some l)
    (h : l = [] ∨ ∃ m ∈ l, (∀ x ∈ l, Num.le x m = true) ∧ Num.le m (.fin 0) = true) :
    normalize B series = some series ∧
      ((∀ o ∈ series, o.normValue = none) →
        ∀ o ∈ (normalize B series).getD [], o.normValue = none) := by
  have hno : ∀ x ∈ l, Num.lt (.fin 0) x = false := by
    rcases h with h | ⟨m, _, hmax, hm⟩
    · subst h
      simp
    · exact fun x hx => num_not_lt_of_le _ _ (num_le_trans _ _ _ (hmax x hx) hm)
  have hn := normalize_of_no_pos B series l hl hno
  refine ⟨hn, ?_⟩
  rw [hn]
  exact fun hall => hall

/-- C6, amended, at the raw values `"up"`, -2: the maximum is -2 and the pass returns
the series as it is. -/
theorem normalize_unset_witness :
    (numericValues sampleBuiltins rawTextMinusTwo = some [.fin (-2)] ∧
      ([Num.fin (-2)] = [] ∨ ∃ m ∈ [Num.fin (-2)],
        (∀ x ∈ [Num.fin (-2)], Num.le x m = true) ∧ Num.le m (.fin 0) = true)) ∧
    (normalize sampleBuiltins rawTextMinusTwo = some rawTextMinusTwo ∧
      ((∀ o ∈ rawTextMinusTwo, o.normValue = none) →
        ∀ o ∈ (normalize sampleBuiltins rawTextMinusTwo).getD [], o.normValue = none)) :=
  have hl : numericValues sampleBuiltins rawTextMinusTwo = some [.fin (-2)] := by
    have hs : sampleBuiltins.strToNumber "up" = .nan := by
      simp [sampleBuiltins]
    simp [numericValues, allSome, toNumber, rawTextMinusTwo, hs]
  have h : [Num.fin (-2)] = [] ∨ ∃ m ∈ [Num.fin (-2)],
      (∀ x ∈ [Num.fin (-2)], Num.le x m = true) ∧ Num.le m (.fin 0) = true := by
    right
    refine ⟨.fin (-2), List.mem_singleton.2 rfl, ?_, by simp [Num.le]⟩
    intro x hx
    rw [List.mem_singleton] at hx
    subst hx
    simp [Num.le]
  ⟨⟨hl, h⟩, normalize_unset sampleBuiltins rawTextMinusTwo _ hl h⟩

/-- C10. The normalization pass of `_page.js` is idempotent: on every series, applying it
twice in a row yields exactly what applying it once yields, the same series (same
entries, same normalized values, set or unset) or the same `TypeError`. -/
theorem normalize_idempotent (B : Builtins) (series : Series) :
    (normalize B series).bind (normalize B) = normalize B series ∧
      ∀ s', normalize B series = some s' → normalize B s' = some s' := by
  have hbind : (normalize B series).bind (normalize B) = normalize B series := by
    cases hl : numericValues B series with
    | none =>
      have hn : normalize B series = none := by
        unfold normalize
        rw [hl]
      rw [hn]
      rfl
    | some l =>
      rcases normalize_cases l (numericValues_ne_nan B series l hl) with
        ⟨m, hm, hmax, hpos⟩ | hno
      · obtain ⟨s', hs', hf⟩ := normalize_of_max_pos B series l m hl hm hmax hpos
        have hl' : numericValues B s' = some l := by
          rw [numericValues_of_values B series s' (rescaled_values B m series s' hf), hl]
        obtain ⟨s'', hs'', hf'⟩ := normalize_of_max_pos B s' l m hl' hm hmax hpos
        rw [hs', Option.some_bind, hs'', rescaled_again B m series s' s'' hf hf']
      · rw [normalize_of_no_pos B series l hl hno, Option.some_bind,
          normalize_of_no_pos B series l hl hno]
  refine ⟨hbind, ?_⟩
  intro s' hs'
  rw [hs', Option.some_bind] at hbind
  exact hbind

/-- C10, at the raw values 3, 9, 6: the pass returns the normalized series, and returns
it again when applied to it. -/
theorem normalize_idempotent_witness :
    normalize sampleBuiltins rawThreeNineSix =
        some
          [ { timestamp := "10:00:00", value := some (.json (.num 3)),
              normValue := some (sampleBuiltins.round (3 / 9)).toValue },
            { timestamp := "10:00:03", value := some (.json (.num 9)),
              normValue := some (.json (.num 1)) },
            { timestamp := "10:00:06", value := some (.json (.num 6)),
              normValue := some (sampleBuiltins.round (6 / 9)).toValue } ] ∧
      normalize sampleBuiltins
          [ { timestamp := "10:00:00", value := some (.json (.num 3)),
              normValue := some (sampleBuiltins.round (3 / 9)).toValue },
            { timestamp := "10:00:03", value := some (.json (.num 9)),
              normValue := some (.json (.num 1)) },
            { timestamp := "10:00:06", value := some (.json (.num 6)),
              normValue := some (sampleBuiltins.round (6 / 9)).toValue } ] =
        some
          [ { timestamp := "10:00:00", value := some (.json (.num 3)),
              normValue := some (sampleBuiltins.round (3 / 9)).toValue },
            { timestamp := "10:00:03", value := some (.json (.num 9)),
              normValue := some (.json (.num 1)) },
            { timestamp := "10:00:06", value := some (.json (.num 6)),
              normValue := some (sampleBuiltins.round (6 / 9)).toValue } ] :=
  ⟨normalize_rawThreeNineSix sampleBuiltins,
    (normalize_idempotent sampleBuiltins rawThreeNineSix).2 _
      (normalize_rawThreeNineSix sampleBuiltins)⟩

/-! ## One sampling cycle -/

theorem pathKeys_a_b : pathKeys "a.b" = ["a", "b"] := by decide

theorem pathKeys_root_n : pathKeys "root.n" = ["n"] := by decide

theorem pathKeys_toString : pathKeys "toString" = ["toString"] := by decide

theorem pathKeys_root_p : pathKeys "root.p" = ["p"] := by decide

theorem resolve_docWithB (B : Builtins) :
    resolve B docWithB ["a", "b"] = some (.json (.num 7)) := rfl

theorem resolve_docWithoutB (B : Builtins) : resolve B docWithoutB ["a", "b"] = none := by
  have hb : "b" ∉ objectPrototypeMembers := by decide
  simp [resolve, resolveStep, docWithoutB, isTruthy, truthy, getProp, ownProp, inheritedProp,
    List.lookup, hb]

theorem resolve_docToString_n (B : Builtins) :
    resolve B docToString ["n"] = some (.json (.num 5)) := rfl

theorem resolve_docToString (B : Builtins) :
    resolve B docToString ["toString"] = some (.json (.num 1)) := rfl

theorem pathKeys_root_x : pathKeys "root.x" = ["x"] := by decide

theorem resolve_docOverflow (B : Builtins) :
    resolve B docOverflow ["x"] = some (.json (.infinity false)) := rfl

theorem resolve_docOwnToString (B : Builtins) :
    resolve B docOwnToString ["p"] = some (.json (.obj [("toString", .num 1)])) := rfl

/-- In `page.js` a path that resolves to `Absent` leaves the store as it is. -/
theorem page_samplePath_absent (B : Builtins) (json : Json) (clock : String → String)
    (stored : Store) (path : String) (h : resolve B json (pathKeys path) = none) :
    Page.samplePath B json clock stored path = .ok stored := by
  simp [Page.samplePath, h]

/-- C2, on the code. With the path `a.b` selected and an empty store, a cycle against
`{"a": {"b": 7}}` followed by a cycle against `{"a": {}}` leaves one entry in the series
under `page.js`, which skips the absent path, and two entries under `_page.js`, which
pushes an entry whose value is `undefined` for the absent path. -/
theorem absent_path_is_pushed_by_legacy (B : Builtins) (t1 t2 : String) :
    seriesOf (Page.fetchData B (clockAt t2)
        (Page.fetchData B (clockAt t1) pageStart (.response true 200 (.ok docWithB)))
        (.response true 200 (.ok docWithoutB))).timeSeries "a.b" =
      [{ timestamp := t1, value := some (.json (.num 7)), normValue := none }] ∧
    seriesOf (Legacy.fetchData B (clockAt t2)
        (Legacy.fetchData B (clockAt t1) legacyStart (.response true 200 (.ok docWithB)))
        (.response true 200 (.ok docWithoutB))).timeSeries "a.b" =
      [{ timestamp := t1, value := some (.json (.num 7)), normValue := some (.json (.num 1)) },
       { timestamp := t2, value := none, normValue := none }] := by
  have hab : "a.b" ∉ objectPrototypeMembers := by decide
  constructor
  · simp [Page.fetchData, fetchJson, Page.sampleAll, Page.samplePath, pageStart, initialState,
      pathKeys_a_b, resolve_docWithB, resolve_docWithoutB, pushEntry, Store.get, Store.set,
      seriesOf, clockAt, hab, reparse, reparseObs, reparseValue, Json.scrub]
  · simp [Legacy.fetchData, fetchJson, Legacy.sampleAll, Legacy.samplePath, legacyStart,
      pathKeys_a_b, resolve_docWithB, resolve_docWithoutB, pushEntry, Store.get, Store.set,
      seriesOf, clockAt, hab, reparse, reparseObs, reparseValue, Json.scrub, normalize,
      numericValues, allSome, toNumber, Num.max, Num.lt, rescaled, Num.div, round_one,
      Num.toValue]

/-- C3, on the code. In `page.js`, with the tokens `root.n` and `toString` selected and
an empty store, a cycle against `{"n": 5, "toString": 1}` finds both paths present, yet
appends nothing: the store inherits a member named `toString`, so no array is created
for that token, its `push` throws, the cycle ends in the `catch`, and the series of
`root.n` stays empty as well. In `page.js` again, with `root.x` selected, two cycles
against `{"x": 1e999}` leave in memory a series whose first value has changed from
Infinity to `null`, because the second cycle rebuilds the series from storage, where
Infinity was written as `null`. In `_page.js`, with `root.p` selected, a cycle against
`{"p": {"toString": 1}}` finds the path present and appends nothing either: `Number`
throws on the value pushed. -/
theorem present_path_not_appended (B : Builtins) (clock : String → String)
    (t1 t2 : String) :
    (resolve B docToString (pathKeys "root.n") = some (.json (.num 5)) ∧
      resolve B docToString (pathKeys "toString") = some (.json (.num 1)) ∧
      Page.fetchData B clock pageInherited (.response true 200 (.ok docToString)) =
        { pageInherited with data := .obj [("error", .str B.notAFunction)] } ∧
      seriesOf (Page.fetchData B clock pageInherited
        (.response true 200 (.ok docToString))).timeSeries "root.n" = [] ∧
      seriesOf (Page.fetchData B clock pageInherited
        (.response true 200 (.ok docToString))).timeSeries "toString" = []) ∧
    (seriesOf (Page.fetchData B (clockAt t1) pageOverflow
        (.response true 200 (.ok docOverflow))).timeSeries "root.x" =
        [{ timestamp := t1, value := some (.json (.infinity false)), normValue := none }] ∧
      seriesOf (Page.fetchData B (clockAt t2)
        (Page.fetchData B (clockAt t1) pageOverflow (.response true 200 (.ok docOverflow)))
        (.response true 200 (.ok docOverflow))).timeSeries "root.x" =
        [{ timestamp := t1, value := some (.json .null), normValue := none },
         { timestamp := t2, value := some (.json (.infinity false)), normValue := none }]) ∧
    (resolve B docOwnToString (pathKeys "root.p") =
        some (.json (.obj [("toString", .num 1)])) ∧
      Legacy.fetchData B clock legacyOwnToString (.response true 200 (.ok docOwnToString)) =
        { legacyOwnToString with data := .obj [("error", .str B.cannotConvert)] } ∧
      seriesOf (Legacy.fetchData B clock legacyOwnToString
        (.response true 200 (.ok docOwnToString))).timeSeries "root.p" = []) := by
  have hn : "root.n" ∉ objectPrototypeMembers := by decide
  have ht : "toString" ∈ objectPrototypeMembers := by decide
  have hp : "root.p" ∉ objectPrototypeMembers := by decide
  have hx : "root.x" ∉ objectPrototypeMembers := by decide
  have hpage : Page.fetchData B clock pageInherited (.response true 200 (.ok docToString)) =
      { pageInherited with data := .obj [("error", .str B.notAFunction)] } := by
    simp [Page.fetchData, fetchJson, Page.sampleAll, Page.samplePath, pageInherited,
      initialState, pathKeys_root_n, pathKeys_toString, resolve_docToString_n,
      resolve_docToString, pushEntry, Store.get, Store.set, hn, ht, errorDoc]
  have hlegacy : Legacy.fetchData B clock legacyOwnToString
      (.response true 200 (.ok docOwnToString)) =
      { legacyOwnToString with data := .obj [("error", .str B.cannotConvert)] } := by
    simp [Legacy.fetchData, fetchJson, Legacy.sampleAll, Legacy.samplePath, legacyOwnToString,
      pathKeys_root_p, resolve_docOwnToString, pushEntry, Store.get, Store.set, hp, errorDoc,
      seriesOf, normalize, numericValues, allSome, toNumber, List.lookup]
  refine ⟨⟨?_, ?_, hpage, ?_, ?_⟩, ⟨?_, ?_⟩, ⟨?_, hlegacy, ?_⟩⟩
  · rw [pathKeys_root_n]; rfl
  · rw [pathKeys_toString]; rfl
  · rw [hpage]; rfl
  · rw [hpage]; rfl
  · simp [Page.fetchData, fetchJson, Page.sampleAll, Page.samplePath, pageOverflow,
      initialState, pathKeys_root_x, resolve_docOverflow, pushEntry, Store.get, Store.set,
      seriesOf, clockAt, hx]
  · simp [Page.fetchData, fetchJson, Page.sampleAll, Page.samplePath, pageOverflow,
      initialState, pathKeys_root_x, resolve_docOverflow, pushEntry, Store.get, Store.set,
      seriesOf, clockAt, hx, reparse, reparseObs, reparseValue, Json.scrub]
  · rw [pathKeys_root_p]; rfl
  · rw [hlegacy]; rfl

/-! ## Failed fetches and the polling controls -/

/-- C8. When the fetch collaborator fails in a `fetchData` cycle of `page.js` (the
request is rejected, the response status is not OK, or the body is not JSON), the cycle
sets the displayed document to the error document with the failure message and changes
nothing else: the series store in memory and in storage, the selection set and the
polling timer are what they were before the cycle. -/
theorem failed_fetch_changes_only_data (B : Builtins) (clock : String → String)
    (st : AppState) :
    (∀ message, Page.fetchData B clock st (.rejected message) =
        { st with data := .obj [("error", .str message)] }) ∧
    (∀ status body, Page.fetchData B clock st (.response false status body) =
        { st with data := .obj [("error", .str ("HTTP error! Status: " ++ toString status))] }) ∧
    (∀ status message, Page.fetchData B clock st (.response true status (.error message)) =
        { st with data := .obj [("error", .str message)] }) := by
  refine ⟨?_, ?_, ?_⟩
  · intro message
    simp [Page.fetchData, fetchJson, errorDoc]
  · intro status body
    simp [Page.fetchData, fetchJson, errorDoc]
  · intro status message
    simp [Page.fetchData, fetchJson, errorDoc]

theorem page_fetchData_controls (B : Builtins) (clock : String → String) (st : AppState)
    (r : FetchResult) :
    (Page.fetchData B clock st r).interval = st.interval ∧
      (Page.fetchData B clock st r).timers = st.timers := by
  unfold Page.fetchData
  split
  · split <;> exact ⟨rfl, rfl⟩
  · exact ⟨rfl, rfl⟩

theorem page_floored_clearTimer (timers : List Timer) (id : Nat)
    (h : ∀ t ∈ timers, (100 : ℚ) ≤ t.period) : ∀ t ∈ Page.clearTimer timers id, 100 ≤ t.period :=
  fun t ht => h t (List.mem_of_mem_filter ht)

theorem page_floored_fetchData (B : Builtins) (clock : String → String) (st : AppState)
    (r : FetchResult) (h : Page.Floored st) : Page.Floored (Page.fetchData B clock st r) := by
  obtain ⟨hi, ht⟩ := page_fetchData_controls B clock st r
  unfold Page.Floored
  rw [hi, ht]
  exact h

theorem page_floored_onIntervalChange (st : AppState) (n : Option ℚ) (h : Page.Floored st) :
    Page.Floored (Page.onIntervalChange st n) := by
  refine ⟨?_, h.2⟩
  intro q hq
  cases n with
  | none => simp [Page.onIntervalChange] at hq
  | some x =>
    simp only [Page.onIntervalChange] at hq
    by_cases hx : x < 100
    · rw [if_pos hx] at hq
      cases hq
      exact le_refl _
    · rw [if_neg hx] at hq
      cases hq
      exact not_lt.1 hx

theorem page_floored_clearCurrent (st : AppState) (h : Page.Floored st) :
    Page.Floored (Page.clearCurrent st) := by
  unfold Page.clearCurrent
  cases st.intervalRef with
  | none => exact h
  | some id =>
    by_cases hid : id ≠ 0
    · simp only [hid, ne_eq, not_false_eq_true, if_true]
      exact ⟨h.1, page_floored_clearTimer _ _ h.2⟩
    · simp only [hid, if_false]
      exact h

theorem page_floored_schedule (st : AppState) (h : Page.Floored st) :
    Page.Floored (Page.schedule st) := by
  unfold Page.schedule
  cases hq : st.interval with
  | none => exact h
  | some q =>
    by_cases hpos : q > 0
    · simp only [hpos, if_true]
      refine ⟨fun p hp => h.1 p (hq.trans hp), ?_⟩
      intro t ht
      rcases List.mem_append.1 ht with ht' | ht'
      · exact h.2 t ht'
      · rw [List.mem_singleton] at ht'
        subst ht'
        exact h.1 q hq
    · simp only [hpos, if_false]
      exact h

theorem page_floored_startFetching (B : Builtins) (clock : String → String) (st : AppState)
    (r : FetchResult) (h : Page.Floored st) :
    Page.Floored (Page.startFetching B clock st r) :=
  page_floored_schedule _ (page_floored_clearCurrent _ (page_floored_fetchData B clock st r h))

theorem page_floored_stopFetching (st : AppState) (h : Page.Floored st) :
    Page.Floored (Page.stopFetching st) := by
  unfold Page.stopFetching
  cases st.intervalRef with
  | none => exact h
  | some id => exact ⟨h.1, page_floored_clearTimer _ _ h.2⟩

theorem page_floored_step (B : Builtins) (st : AppState) (e : Page.Event)
    (h : Page.Floored st) : Page.Floored (Page.step B st e) := by
  cases e with
  | input n => exact page_floored_onIntervalChange st n h
  | start clock r => exact page_floored_startFetching B clock _ r ⟨h.1, h.2⟩
  | stop => exact page_floored_stopFetching _ ⟨h.1, h.2⟩
  | tick clock r => exact page_floored_fetchData B clock st r h

theorem page_floored_run (B : Builtins) (st : AppState) (events : List Page.Event)
    (h : Page.Floored st) : Page.Floored (Page.run B st events) := by
  induction events generalizing st with
  | nil => exact h
  | cons e es ih => exact ih (Page.step B st e) (page_floored_step B st e h)

theorem page_floored_initialState (savedSelected : Option (List String))
    (savedSeries : Option Store) : Page.Floored (initialState savedSelected savedSeries) := by
  refine ⟨?_, ?_⟩
  · intro q hq
    simp [initialState] at hq
    rw [← hq]
    norm_num
  · intro t ht
    simp [initialState] at ht

/-- C9. The polling period is clamped to a floor of 100: a number entered into the
interval control is stored as 100 when it is below 100 and as itself otherwise; so from
the initial state, whose period is 1000, after any sequence of inputs, starts, stops and
timer ticks the stored period is at least 100 and so is the period of every timer that
`startFetching` has scheduled. -/
theorem polling_period_floor (B : Builtins) (savedSelected : Option (List String))
    (savedSeries : Option Store) (events : List Page.Event) (st : AppState) (q : ℚ) :
    (Page.onIntervalChange st (some q)).interval = some (if q < 100 then 100 else q) ∧
    (initialState savedSelected savedSeries).interval = some 1000 ∧
    (∀ p, (Page.run B (initialState savedSelected savedSeries) events).interval = some p →
      100 ≤ p) ∧
    (∀ t ∈ (Page.run B (initialState savedSelected savedSeries) events).timers,
      100 ≤ t.period) ∧
    (∀ clock r, ∀ t ∈ (Page.startFetching B clock
        (Page.run B (initialState savedSelected savedSeries) events) r).timers,
      100 ≤ t.period) := by
  have hrun := page_floored_run B _ events
    (page_floored_initialState savedSelected savedSeries)
  refine ⟨?_, rfl, hrun.1, hrun.2, ?_⟩
  · simp only [Page.onIntervalChange]
    split <;> rfl
  · intro clock r
    exact (page_floored_startFetching B clock _ r hrun).2

/-- C9, after the entry 5 and a start whose fetch fails: the one timer scheduled has the
period 100. -/
theorem polling_period_floor_witness :
    ({ id := 1, period := 100 } : Timer) ∈
        (Page.run sampleBuiltins (initialState none none)
          [.input (some 5), .start (clockAt "10:00:00") (.rejected "offline")]).timers ∧
      (100 : ℚ) ≤ ({ id := 1, period := 100 } : Timer).period :=
  have hmem : ({ id := 1, period := 100 } : Timer) ∈
      (Page.run sampleBuiltins (initialState none none)
        [.input (some 5), .start (clockAt "10:00:00") (.rejected "offline")]).timers := by
    simp [Page.run, Page.step, Page.onIntervalChange, Page.handleStart, Page.startFetching,
      Page.schedule, Page.clearCurrent, Page.fetchData, fetchJson, initialState]
    norm_num
  ⟨hmem, (polling_period_floor sampleBuiltins none none
    [.input (some 5), .start (clockAt "10:00:00") (.rejected "offline")]
    (initialState none none) 5).2.2.2.1 _ hmem⟩

end ApiSave
